import Mathlib

/-!
Verification of the hex-grid coordinate module (`src/app/lib/hexgrid.ts`)
and of the ECS move system (`src/app/lib/ecs.ts`) of the
`ecs-remix-hexmap` repository.

JavaScript numbers are modelled as elements of a linear ordered field
(instantiated at `ℚ` for executable checks and at `ℝ` where `Math.sqrt 3`
is involved); `Math.round` is modelled as `⌊x + 1/2⌋`, the round-half-up
rule JavaScript uses.  Integer-valued grid coordinates are modelled over
`ℤ`.
-/

namespace HexMap

/-- Type `HexCoordinate` from hexgrid.ts: cube coordinate `(q, r, s)`. -/
structure HexCoordinate (α : Type) where
  q : α
  r : α
  s : α
  deriving DecidableEq, Repr

/-- Type `Point` from hexgrid.ts: planar position `(x, y)`. -/
structure Point (α : Type) where
  x : α
  y : α
  deriving DecidableEq, Repr

/-- Function `hex(q, r)` from hexgrid.ts: `{ q, r, s: -q - r }`. -/
def hex {α : Type} [Ring α] (q r : α) : HexCoordinate α :=
  ⟨q, r, -q - r⟩

/-- Function `hexToPixel(hex, size)` from hexgrid.ts, with `Math.sqrt(3)` passed
as the parameter `sqrt3`:
`x = size * (3/2 * hex.q)`, `y = size * (sqrt3/2 * hex.q + sqrt3 * hex.r)`. -/
def hexToPixel {α : Type} [Field α] (sqrt3 : α) (h : HexCoordinate α) (size : α) : Point α :=
  ⟨size * (3 / 2 * h.q), size * (sqrt3 / 2 * h.q + sqrt3 * h.r)⟩

/-- JavaScript `Math.round`: round half towards positive infinity. -/
def jsRound {α : Type} [LinearOrderedField α] [FloorRing α] (x : α) : ℤ :=
  ⌊x + 1 / 2⌋

/-- Function `hexRound(h)` from hexgrid.ts: round each component, then recompute
the component with the largest rounding error from the other two. -/
def hexRound {α : Type} [LinearOrderedField α] [FloorRing α]
    (h : HexCoordinate α) : HexCoordinate ℤ :=
  let q : ℤ := jsRound h.q
  let r : ℤ := jsRound h.r
  let s : ℤ := jsRound h.s
  let q_diff : α := |(q : α) - h.q|
  let r_diff : α := |(r : α) - h.r|
  let s_diff : α := |(s : α) - h.s|
  if q_diff > r_diff ∧ q_diff > s_diff then
    ⟨-r - s, r, s⟩
  else if r_diff > s_diff then
    ⟨q, -q - s, s⟩
  else
    ⟨q, r, -q - r⟩

/-- Function `pixelToHex(point, size)` from hexgrid.ts:
`q = (2/3 * point.x) / size`, `r = (-1/3 * point.x + sqrt3/3 * point.y) / size`,
then `hexRound(hex(q, r))`. -/
def pixelToHex {α : Type} [LinearOrderedField α] [FloorRing α]
    (sqrt3 : α) (p : Point α) (size : α) : HexCoordinate ℤ :=
  hexRound (hex ((2 / 3 * p.x) / size) ((-1 / 3 * p.x + sqrt3 / 3 * p.y) / size))

/-- The `directions` constant inside `hexNeighbors` in hexgrid.ts. -/
def hexDirections {α : Type} [Ring α] : List (HexCoordinate α) :=
  [⟨1, 0, -1⟩, ⟨1, -1, 0⟩, ⟨0, -1, 1⟩, ⟨-1, 0, 1⟩, ⟨-1, 1, 0⟩, ⟨0, 1, -1⟩]

/-- Function `hexNeighbors(hex)` from hexgrid.ts: componentwise sum of `hex` with
each of the six directions, in order. -/
def hexNeighbors {α : Type} [Ring α] (hex : HexCoordinate α) : List (HexCoordinate α) :=
  hexDirections.map fun dir => ⟨hex.q + dir.q, hex.r + dir.r, hex.s + dir.s⟩

/-- Function `hexDistance(a, b)` from hexgrid.ts:
`Math.max(|a.q-b.q|, |a.r-b.r|, |a.s-b.s|)`. -/
def hexDistance {α : Type} [LinearOrderedRing α] (a b : HexCoordinate α) : α :=
  max (max |a.q - b.q| |a.r - b.r|) |a.s - b.s|

/-- The cube-coordinate invariant `q + r + s = 0`. -/
def sumZero {α : Type} [Ring α] (h : HexCoordinate α) : Prop :=
  h.q + h.r + h.s = 0

instance {α : Type} [Ring α] [DecidableEq α] (h : HexCoordinate α) :
    Decidable (sumZero h) := by
  unfold sumZero
  infer_instance

/-- Predicate `reachable n a b`: there is a walk of exactly `n` single neighbor
steps (through `hexNeighbors`) from `a` to `b`. -/
def reachable : ℕ → HexCoordinate ℤ → HexCoordinate ℤ → Prop
  | 0, a, b => a = b
  | n + 1, a, b => ∃ c ∈ hexNeighbors a, reachable n c b

/-!
The ECS layer (`src/app/lib/ecs.ts`).  Entities are records of optional
components; the Miniplex world is modelled as a `List Entity`, an entity
reference as an index into that list.  JavaScript numbers held in
components are modelled as `ℚ`.
-/

/-- Component `Position` from ecs.ts. -/
structure Position where
  lng : ℚ
  lat : ℚ
  deriving DecidableEq, Repr, Inhabited

/-- Component `HexPosition` from ecs.ts. -/
structure HexPosition where
  coordinate : HexCoordinate ℚ
  deriving DecidableEq, Repr

/-- The terrain union type of `HexTileComponent` from ecs.ts. -/
inductive Terrain where
  | plains
  | forest
  | water
  | mountain
  deriving DecidableEq, Repr

/-- The `"hex" | "unit" | "building"` union type of `Renderable` from ecs.ts. -/
inductive RenderableType where
  | hex
  | unit
  | building
  deriving DecidableEq, Repr

/-- Component `Renderable` from ecs.ts. -/
structure Renderable where
  type : RenderableType
  color : String
  opacity : ℚ
  visible : Bool
  deriving DecidableEq, Repr

/-- Component `Selectable` from ecs.ts. -/
structure Selectable where
  selected : Bool
  hoverable : Bool
  deriving DecidableEq, Repr

/-- Type `HexTile` from hexgrid.ts (tile record with coordinate, center,
vertices and id). -/
structure HexTile where
  coordinate : HexCoordinate ℚ
  center : Point ℚ
  vertices : List (Point ℚ)
  id : String
  deriving DecidableEq, Repr

/-- Component `HexTileComponent` from ecs.ts. -/
structure HexTileComponent where
  tile : HexTile
  terrain : Terrain
  occupied : Bool
  deriving DecidableEq, Repr

/-- Component `Unit` from ecs.ts (named `UnitComponent` here because
`Unit` is taken by the Lean core library). -/
structure UnitComponent where
  type : String
  health : ℚ
  maxHealth : ℚ
  movementRange : ℚ
  canMove : Bool
  deriving DecidableEq, Repr

/-- Component `Building` from ecs.ts; the `production` record is an
association list. -/
structure Building where
  type : String
  health : ℚ
  maxHealth : ℚ
  production : List (String × ℚ)
  deriving DecidableEq, Repr

/-- Type `Entity` from ecs.ts: every component is optional. -/
structure Entity where
  position : Option Position
  hexPosition : Option HexPosition
  renderable : Option Renderable
  selectable : Option Selectable
  hexTile : Option HexTileComponent
  unit : Option UnitComponent
  building : Option Building
  deriving DecidableEq, Repr, Inhabited

/-- Membership in the `hexTiles` archetype query
(`world.with("hexTile", "position", "renderable")`). -/
def isHexTileEntity (e : Entity) : Bool :=
  e.hexTile.isSome && e.position.isSome && e.renderable.isSome

/-- Index of the first `hexTiles`-archetype entity whose tile coordinate
equals `c` (the `Array.from(hexTiles).find(...)` searches in `moveUnit`). -/
def findTile (w : List Entity) (c : HexCoordinate ℚ) : Option ℕ :=
  w.findIdx? fun t =>
    isHexTileEntity t && t.hexTile.any fun ht => decide (ht.tile.coordinate = c)

/-- Function `GameSystems.moveUnit(unitEntity, newCoordinate)` from ecs.ts.  The
world is threaded explicitly; the result pairs the updated world with the
returned boolean.  Mutations are applied in source order: free the old
hex, update the unit's `position`, `hexPosition` and `canMove`, mark the
target hex occupied.  The non-null-asserted field writes
(`unitEntity.position!.lng = ...`) are modelled with `Option.map`. -/
def moveUnit (w : List Entity) (i : ℕ) (newCoordinate : HexCoordinate ℚ) :
    List Entity × Bool :=
  match w.get? i with
  | none => (w, false)
  | some e =>
    match e.unit, e.hexPosition with
    | none, _ => (w, false)
    | some _, none => (w, false)
    | some u, some hp =>
      if u.canMove = false then (w, false)
      else
        match findTile w newCoordinate with
        | none => (w, false)
        | some j =>
          let t := (w.get? j).getD default
          if t.hexTile.any fun ht => ht.occupied then (w, false)
          else
            let w1 :=
              match findTile w hp.coordinate with
              | none => w
              | some k =>
                let olde := (w.get? k).getD default
                w.set k { olde with
                  hexTile := olde.hexTile.map fun ht : HexTileComponent => { ht with occupied := false } }
            let t1 := (w1.get? j).getD default
            let e1 := (w1.get? i).getD default
            let e2 := { e1 with
              position := e1.position.map fun _ =>
                ⟨(t1.position.getD default).lng, (t1.position.getD default).lat⟩,
              hexPosition := some ⟨newCoordinate⟩,
              unit := e1.unit.map fun uu : UnitComponent => { uu with canMove := false } }
            let w2 := w1.set i e2
            let t2 := (w2.get? j).getD default
            let w3 := w2.set j { t2 with
              hexTile := t2.hexTile.map fun ht : HexTileComponent => { ht with occupied := true } }
            (w3, true)


/-!
Helper lemmas.
-/

lemma jsRound_intCast {α : Type} [LinearOrderedField α] [FloorRing α] (n : ℤ) :
    jsRound ((n : α)) = n := by
  unfold jsRound
  rw [Int.floor_int_add]
  norm_num

lemma hexRound_exact {α : Type} [LinearOrderedField α] [FloorRing α] (q r : ℤ) :
    hexRound (hex ((q : α)) ((r : α))) = hex q r := by
  have e3 : jsRound (-(q : α) - (r : α)) = -q - r := by
    have h : (-(q : α) - (r : α)) = (((-q - r : ℤ) : α)) := by push_cast; ring
    rw [h, jsRound_intCast]
  simp [hexRound, hex, jsRound_intCast, e3, sub_self, abs_zero]

lemma abs_q_le_hexDistance (a b : HexCoordinate ℤ) : |a.q - b.q| ≤ hexDistance a b :=
  (le_max_left _ _).trans (le_max_left _ _)

lemma abs_r_le_hexDistance (a b : HexCoordinate ℤ) : |a.r - b.r| ≤ hexDistance a b :=
  (le_max_right _ _).trans (le_max_left _ _)

lemma abs_s_le_hexDistance (a b : HexCoordinate ℤ) : |a.s - b.s| ≤ hexDistance a b :=
  le_max_right _ _

lemma hexDistance_le_iff {a b : HexCoordinate ℤ} {n : ℤ} :
    hexDistance a b ≤ n ↔ |a.q - b.q| ≤ n ∧ |a.r - b.r| ≤ n ∧ |a.s - b.s| ≤ n := by
  simp [hexDistance, max_le_iff, and_assoc]

lemma hexDistance_nonneg (a b : HexCoordinate ℤ) : 0 ≤ hexDistance a b :=
  (abs_nonneg _).trans (abs_s_le_hexDistance a b)

lemma mem_hexNeighbors_iff {a c : HexCoordinate ℤ} :
    c ∈ hexNeighbors a ↔
      c = ⟨a.q + 1, a.r, a.s - 1⟩ ∨ c = ⟨a.q + 1, a.r - 1, a.s⟩ ∨
      c = ⟨a.q, a.r - 1, a.s + 1⟩ ∨ c = ⟨a.q - 1, a.r, a.s + 1⟩ ∨
      c = ⟨a.q - 1, a.r + 1, a.s⟩ ∨ c = ⟨a.q, a.r + 1, a.s - 1⟩ := by
  simp only [hexNeighbors, hexDirections, List.map_cons, List.map_nil, List.mem_cons,
    List.not_mem_nil, or_false, add_zero, ← sub_eq_add_neg]

lemma sumZero_of_mem_hexNeighbors {a c : HexCoordinate ℤ}
    (ha : sumZero a) (hc : c ∈ hexNeighbors a) : sumZero c := by
  unfold sumZero at ha ⊢
  rw [mem_hexNeighbors_iff] at hc
  rcases hc with h | h | h | h | h | h <;> subst h <;> dsimp <;> omega

/-!
Claim theorems.
-/

/-- Claim C1, counterexample: the spec claims
`hexRound {q: 0.5, r: 0.5, s: -1.0} = {q: 0, r: 1, s: -1}` (with `q`
corrected); the code disagrees.  With `Δq = Δr = 1/2` and `Δs = 0`, the
strict comparison `q_diff > r_diff` fails, `r_diff > s_diff` holds, so
`r`, not `q`, absorbs the correction. -/
theorem hexRound_tieBreak_claim_counterexample :
    hexRound (⟨1 / 2, 1 / 2, -1⟩ : HexCoordinate ℚ) ≠ ⟨0, 1, -1⟩ := by
  norm_num [hexRound, jsRound]

/-- Claim C1, amended: rounding the fractional coordinate
`{q: 0.5, r: 0.5, s: -1.0}` leaves `s` unchanged at `-1` and corrects `r`
(not `q`) via the tie-break order, yielding exactly `{q: 1, r: 0, s: -1}`. -/
theorem hexRound_tieBreak :
    hexRound (⟨1 / 2, 1 / 2, -1⟩ : HexCoordinate ℚ) = ⟨1, 0, -1⟩ := by
  norm_num [hexRound, jsRound]

/-- Claim C2: for every pair of integers `(q, r)` and every real
`size > 0`, `pixelToHex (hexToPixel (hex q r) size) size` returns the
original coordinate `hex q r`, componentwise. -/
theorem pixelToHex_hexToPixel_roundTrip (q r : ℤ) (size : ℝ) (hs : 0 < size) :
    pixelToHex (Real.sqrt 3) (hexToPixel (Real.sqrt 3) (hex ((q : ℝ)) ((r : ℝ))) size) size
      = hex q r := by
  have h3 : Real.sqrt 3 * Real.sqrt 3 = 3 := Real.mul_self_sqrt (by norm_num)
  have hsne : size ≠ 0 := ne_of_gt hs
  unfold pixelToHex hexToPixel
  have hq : (2 / 3 * (size * (3 / 2 * (hex ((q : ℝ)) ((r : ℝ))).q))) / size = ((q : ℝ)) := by
    simp only [hex]
    rw [div_eq_iff hsne]
    ring
  have hr : (-1 / 3 * (size * (3 / 2 * (hex ((q : ℝ)) ((r : ℝ))).q)) +
      Real.sqrt 3 / 3 * (size * (Real.sqrt 3 / 2 * (hex ((q : ℝ)) ((r : ℝ))).q +
        Real.sqrt 3 * (hex ((q : ℝ)) ((r : ℝ))).r))) / size = ((r : ℝ)) := by
    simp only [hex]
    rw [div_eq_iff hsne]
    linear_combination (size * ((q : ℝ)) / 6 + size * ((r : ℝ)) / 3) * h3
  rw [hq, hr, hexRound_exact]

/-- Witness for claim C2 at `q = 1`, `r = 2`, `size = 1`. -/
theorem pixelToHex_hexToPixel_roundTrip_witness :
    (0 : ℝ) < 1 ∧
    pixelToHex (Real.sqrt 3)
        (hexToPixel (Real.sqrt 3) (hex (((1 : ℤ) : ℝ)) (((2 : ℤ) : ℝ))) 1) 1
      = hex (1 : ℤ) 2 :=
  ⟨by norm_num, pixelToHex_hexToPixel_roundTrip 1 2 1 (by norm_num)⟩

/-- Claim C3, counterexample: the spec claims
`hexToPixel {q:1, r:0, s:-1} 2000` has `y = 2000 * sqrt 3`; the code
computes `y = 2000 * (sqrt 3 / 2) = 1000 * sqrt 3`. -/
theorem hexToPixel_concrete_claim_counterexample :
    hexToPixel (Real.sqrt 3) (⟨1, 0, -1⟩ : HexCoordinate ℝ) 2000
      ≠ ⟨3000, 2000 * Real.sqrt 3⟩ := by
  have h3 : (0 : ℝ) < Real.sqrt 3 := Real.sqrt_pos.mpr (by norm_num)
  simp only [hexToPixel, ne_eq, Point.mk.injEq, not_and]
  intro _ hy
  nlinarith [h3]

/-- Claim C3, amended: `hexToPixel {q:1, r:0, s:-1} 2000` yields
`x = 3000` and `y = 1000 * sqrt 3` (numerically `1732.05...`). -/
theorem hexToPixel_concrete :
    hexToPixel (Real.sqrt 3) (⟨1, 0, -1⟩ : HexCoordinate ℝ) 2000
      = ⟨3000, 1000 * Real.sqrt 3⟩ := by
  simp only [hexToPixel, Point.mk.injEq]
  constructor <;> ring

/-- Claim C5: for every coordinate with arbitrary real components,
`hexRound` returns integer components (the codomain is
`HexCoordinate ℤ`) summing to zero exactly. -/
theorem hexRound_restores_invariant (h : HexCoordinate ℝ) : sumZero (hexRound h) := by
  simp only [hexRound, sumZero]
  split_ifs <;> dsimp <;> ring

/-- Claim C6: for every coordinate `h`, `hexNeighbors h` is exactly the
six coordinates obtained by adding the six fixed unit directions
`(1,0,-1),(1,-1,0),(0,-1,1),(-1,0,1),(-1,1,0),(0,1,-1)` to `h`, in that
order; in particular `hexNeighbors {q:0,r:0,s:0}` is exactly that list
of six unit vectors in that order. -/
theorem hexNeighbors_spec (h : HexCoordinate ℤ) :
    hexNeighbors h =
      [⟨h.q + 1, h.r, h.s - 1⟩, ⟨h.q + 1, h.r - 1, h.s⟩, ⟨h.q, h.r - 1, h.s + 1⟩,
       ⟨h.q - 1, h.r, h.s + 1⟩, ⟨h.q - 1, h.r + 1, h.s⟩, ⟨h.q, h.r + 1, h.s - 1⟩] ∧
    hexNeighbors (⟨0, 0, 0⟩ : HexCoordinate ℤ) =
      [⟨1, 0, -1⟩, ⟨1, -1, 0⟩, ⟨0, -1, 1⟩, ⟨-1, 0, 1⟩, ⟨-1, 1, 0⟩, ⟨0, 1, -1⟩] := by
  constructor
  · simp [hexNeighbors, hexDirections, HexCoordinate.mk.injEq]
    omega
  · decide

/-- Claim C7: every element of `hexNeighbors h` is at `hexDistance`
exactly `1` from `h`. -/
theorem hexDistance_neighbor_eq_one (h n : HexCoordinate ℤ)
    (hn : n ∈ hexNeighbors h) : hexDistance h n = 1 := by
  rw [mem_hexNeighbors_iff] at hn
  rcases hn with h1 | h1 | h1 | h1 | h1 | h1 <;> subst h1 <;>
    simp only [hexDistance] <;> ring_nf <;> norm_num

/-- Witness for claim C7 at `h = (0,0,0)`, `n = (1,0,-1)`. -/
theorem hexDistance_neighbor_eq_one_witness :
    (⟨1, 0, -1⟩ : HexCoordinate ℤ) ∈ hexNeighbors ⟨0, 0, 0⟩ ∧
    hexDistance (⟨0, 0, 0⟩ : HexCoordinate ℤ) ⟨1, 0, -1⟩ = 1 :=
  ⟨by decide, hexDistance_neighbor_eq_one ⟨0, 0, 0⟩ ⟨1, 0, -1⟩ (by decide)⟩

/-- Claim C8: for all integers `q`, `r`, the coordinate `hex q r` is
`{q, r, s: -q-r}` and satisfies `q + r + s = 0`; `hex` is total (it is a
plain function with no error conditions). -/
theorem hex_spec (q r : ℤ) :
    hex q r = ⟨q, r, -q - r⟩ ∧ sumZero (hex q r) := by
  refine ⟨rfl, ?_⟩
  simp only [hex, sumZero]
  ring

/-- Claim C9: every neighbor of a coordinate satisfying `q + r + s = 0`
also satisfies `q + r + s = 0`. -/
theorem hexNeighbors_sumZero (h : HexCoordinate ℤ) (hs : sumZero h)
    (n : HexCoordinate ℤ) (hn : n ∈ hexNeighbors h) : sumZero n :=
  sumZero_of_mem_hexNeighbors hs hn

/-- Witness for claim C9 at `h = (0,0,0)`, `n = (1,0,-1)`. -/
theorem hexNeighbors_sumZero_witness :
    sumZero (⟨0, 0, 0⟩ : HexCoordinate ℤ) ∧
    (⟨1, 0, -1⟩ : HexCoordinate ℤ) ∈ hexNeighbors ⟨0, 0, 0⟩ ∧
    sumZero (⟨1, 0, -1⟩ : HexCoordinate ℤ) :=
  ⟨by decide, by decide,
    hexNeighbors_sumZero ⟨0, 0, 0⟩ (by decide) ⟨1, 0, -1⟩ (by decide)⟩


/-!
The hex distance is the graph metric of the neighbor relation
(machinery for claim C4).
-/

lemma hexDistance_le_neighbor (a b c : HexCoordinate ℤ) (hc : c ∈ hexNeighbors a) :
    hexDistance a b ≤ hexDistance c b + 1 := by
  have hq2 := abs_q_le_hexDistance c b
  have hr2 := abs_r_le_hexDistance c b
  have hs2 := abs_s_le_hexDistance c b
  obtain ⟨D, hD⟩ : ∃ D, hexDistance c b = D := ⟨_, rfl⟩
  rw [hexDistance_le_iff, hD]
  rw [hD, abs_le] at hq2 hr2 hs2
  simp only [abs_le]
  rw [mem_hexNeighbors_iff] at hc
  rcases hc with h | h | h | h | h | h <;> subst h <;> dsimp at hq2 hr2 hs2 ⊢ <;> omega

lemma hexDistance_max_attained (a b : HexCoordinate ℤ) :
    hexDistance a b ≤ |a.q - b.q| ∨ hexDistance a b ≤ |a.r - b.r| ∨
    hexDistance a b ≤ |a.s - b.s| := by
  unfold hexDistance
  rcases max_choice (max |a.q - b.q| |a.r - b.r|) |a.s - b.s| with h | h
  · rcases max_choice |a.q - b.q| |a.r - b.r| with h2 | h2
    · left
      rw [h, h2]
    · right
      left
      rw [h, h2]
  · right
    right
    rw [h]

lemma hexDistance_step (a b : HexCoordinate ℤ) (ha : sumZero a) (hb : sumZero b)
    (hpos : 1 ≤ hexDistance a b) :
    ∃ c ∈ hexNeighbors a, hexDistance c b + 1 = hexDistance a b := by
  have hq2 := abs_q_le_hexDistance a b
  have hr2 := abs_r_le_hexDistance a b
  have hs2 := abs_s_le_hexDistance a b
  have hMeq := hexDistance_max_attained a b
  obtain ⟨M, hM⟩ : ∃ M, hexDistance a b = M := ⟨_, rfl⟩
  rw [hM] at hpos hMeq ⊢
  rw [hM, abs_le] at hq2 hr2 hs2
  rw [le_abs, le_abs, le_abs] at hMeq
  unfold sumZero at ha hb
  have key : ∀ c : HexCoordinate ℤ, c ∈ hexNeighbors a → hexDistance c b ≤ M - 1 →
      hexDistance c b + 1 = M := by
    intro c hmem hub
    have hlb := hexDistance_le_neighbor a b c hmem
    rw [hM] at hlb
    obtain ⟨D, hD⟩ : ∃ D, hexDistance c b = D := ⟨_, rfl⟩
    rw [hD] at hlb hub ⊢
    omega
  rcases le_total (b.q - a.q) (b.r - a.r) with h1 | h1 <;>
    rcases le_total (b.r - a.r) (b.s - a.s) with h2 | h2 <;>
    rcases le_total (b.q - a.q) (b.s - a.s) with h3 | h3
  · have hmem : (⟨a.q - 1, a.r, a.s + 1⟩ : HexCoordinate ℤ) ∈ hexNeighbors a := by
      simp [mem_hexNeighbors_iff]
    refine ⟨_, hmem, key _ hmem ?_⟩
    rw [hexDistance_le_iff]
    simp only [abs_le]
    omega
  · exfalso
    omega
  · have hmem : (⟨a.q - 1, a.r + 1, a.s⟩ : HexCoordinate ℤ) ∈ hexNeighbors a := by
      simp [mem_hexNeighbors_iff]
    refine ⟨_, hmem, key _ hmem ?_⟩
    rw [hexDistance_le_iff]
    simp only [abs_le]
    omega
  · have hmem : (⟨a.q, a.r + 1, a.s - 1⟩ : HexCoordinate ℤ) ∈ hexNeighbors a := by
      simp [mem_hexNeighbors_iff]
    refine ⟨_, hmem, key _ hmem ?_⟩
    rw [hexDistance_le_iff]
    simp only [abs_le]
    omega
  · have hmem : (⟨a.q, a.r - 1, a.s + 1⟩ : HexCoordinate ℤ) ∈ hexNeighbors a := by
      simp [mem_hexNeighbors_iff]
    refine ⟨_, hmem, key _ hmem ?_⟩
    rw [hexDistance_le_iff]
    simp only [abs_le]
    omega
  · have hmem : (⟨a.q + 1, a.r - 1, a.s⟩ : HexCoordinate ℤ) ∈ hexNeighbors a := by
      simp [mem_hexNeighbors_iff]
    refine ⟨_, hmem, key _ hmem ?_⟩
    rw [hexDistance_le_iff]
    simp only [abs_le]
    omega
  · exfalso
    omega
  · have hmem : (⟨a.q + 1, a.r, a.s - 1⟩ : HexCoordinate ℤ) ∈ hexNeighbors a := by
      simp [mem_hexNeighbors_iff]
    refine ⟨_, hmem, key _ hmem ?_⟩
    rw [hexDistance_le_iff]
    simp only [abs_le]
    omega

lemma reachable_hexDistance_le (n : ℕ) (a b : HexCoordinate ℤ)
    (h : reachable n a b) : hexDistance a b ≤ (n : ℤ) := by
  induction n generalizing a with
  | zero =>
    have hab : a = b := h
    subst hab
    simp [hexDistance]
  | succ n ih =>
    obtain ⟨c, hc, hcb⟩ : ∃ c ∈ hexNeighbors a, reachable n c b := h
    have h1 := hexDistance_le_neighbor a b c hc
    have h2 := ih c hcb
    push_cast
    linarith

lemma reachable_of_hexDistance (n : ℕ) :
    ∀ a b : HexCoordinate ℤ, sumZero a → sumZero b →
      hexDistance a b = (n : ℤ) → reachable n a b := by
  induction n with
  | zero =>
    intro a b _ _ hD
    have hle : hexDistance a b ≤ 0 := le_of_eq (by exact_mod_cast hD)
    rw [hexDistance_le_iff] at hle
    obtain ⟨h1, h2, h3⟩ := hle
    rw [abs_le] at h1 h2 h3
    show a = b
    obtain ⟨aq, ar, a3⟩ := a
    obtain ⟨bq, br, b3⟩ := b
    dsimp at h1 h2 h3
    simp only [HexCoordinate.mk.injEq]
    omega
  | succ n ih =>
    intro a b ha hb hD
    have hpos : 1 ≤ hexDistance a b := by
      rw [hD]
      omega
    obtain ⟨c, hc, hstep⟩ := hexDistance_step a b ha hb hpos
    have hcz : sumZero c := sumZero_of_mem_hexNeighbors ha hc
    have hcd : hexDistance c b = (n : ℤ) := by
      rw [hD] at hstep
      push_cast at hstep
      linarith
    exact ⟨c, hc, ih c b hcz hb hcd⟩

/-- Claim C4: for coordinates `a`, `b` with `q + r + s = 0`,
`hexDistance a b` (the max of the componentwise absolute differences) is
the minimum number of single neighbor steps (through `hexNeighbors`)
from `a` to `b`; moreover it is symmetric, zero iff `a = b`
componentwise, and satisfies the triangle inequality. -/
theorem hexDistance_spec (a b : HexCoordinate ℤ) (ha : sumZero a) (hb : sumZero b) :
    IsLeast {n : ℕ | reachable n a b} (hexDistance a b).toNat ∧
    hexDistance a b = hexDistance b a ∧
    (hexDistance a b = 0 ↔ a = b) ∧
    ∀ c : HexCoordinate ℤ, sumZero c →
      hexDistance a c ≤ hexDistance a b + hexDistance b c := by
  refine ⟨⟨?_, ?_⟩, ?_, ?_, ?_⟩
  · show reachable (hexDistance a b).toNat a b
    apply reachable_of_hexDistance _ a b ha hb
    rw [Int.toNat_of_nonneg (hexDistance_nonneg a b)]
  · intro n hn
    have hle := reachable_hexDistance_le n a b hn
    exact Int.toNat_le.mpr hle
  · unfold hexDistance
    rw [abs_sub_comm a.q b.q, abs_sub_comm a.r b.r, abs_sub_comm a.s b.s]
  · constructor
    · intro h0
      have hle : hexDistance a b ≤ 0 := le_of_eq h0
      rw [hexDistance_le_iff] at hle
      obtain ⟨h1, h2, h3⟩ := hle
      rw [abs_le] at h1 h2 h3
      obtain ⟨aq, ar, a3⟩ := a
      obtain ⟨bq, br, b3⟩ := b
      dsimp at h1 h2 h3
      simp only [HexCoordinate.mk.injEq]
      omega
    · intro h
      subst h
      simp [hexDistance]
  · intro c _
    rw [hexDistance_le_iff]
    refine ⟨?_, ?_, ?_⟩
    · exact (abs_sub_le a.q b.q c.q).trans
        (add_le_add (abs_q_le_hexDistance a b) (abs_q_le_hexDistance b c))
    · exact (abs_sub_le a.r b.r c.r).trans
        (add_le_add (abs_r_le_hexDistance a b) (abs_r_le_hexDistance b c))
    · exact (abs_sub_le a.s b.s c.s).trans
        (add_le_add (abs_s_le_hexDistance a b) (abs_s_le_hexDistance b c))

/-- Witness for claim C4 at `a = (0,0,0)`, `b = (2,-1,-1)` (the spec's
concrete scenario, distance 2). -/
theorem hexDistance_spec_witness :
    IsLeast {n : ℕ | reachable n (⟨0, 0, 0⟩ : HexCoordinate ℤ) ⟨2, -1, -1⟩}
      (hexDistance (⟨0, 0, 0⟩ : HexCoordinate ℤ) ⟨2, -1, -1⟩).toNat ∧
    hexDistance (⟨0, 0, 0⟩ : HexCoordinate ℤ) ⟨2, -1, -1⟩
      = hexDistance ⟨2, -1, -1⟩ ⟨0, 0, 0⟩ ∧
    (hexDistance (⟨0, 0, 0⟩ : HexCoordinate ℤ) ⟨2, -1, -1⟩ = 0 ↔
      (⟨0, 0, 0⟩ : HexCoordinate ℤ) = ⟨2, -1, -1⟩) ∧
    ∀ c : HexCoordinate ℤ, sumZero c →
      hexDistance (⟨0, 0, 0⟩ : HexCoordinate ℤ) c ≤
        hexDistance (⟨0, 0, 0⟩ : HexCoordinate ℤ) ⟨2, -1, -1⟩ +
          hexDistance (⟨2, -1, -1⟩ : HexCoordinate ℤ) c :=
  hexDistance_spec ⟨0, 0, 0⟩ ⟨2, -1, -1⟩ (by decide) (by decide)

lemma moveUnit_cases (w : List Entity) (i : ℕ) (c : HexCoordinate ℚ) :
    moveUnit w i c = (w, false) ∨ (moveUnit w i c).2 = true := by
  unfold moveUnit
  split
  · left
    rfl
  · split
    · left
      rfl
    · left
      rfl
    · split
      · left
        rfl
      · split
        · left
          rfl
        · split <;> dsimp only <;> split
          · left
            rfl
          · right
            rfl
          · left
            rfl
          · right
            rfl

/-- Claim C10: whenever `GameSystems.moveUnit` returns `false` (missing
`unit` or `hexPosition` component, `canMove` false, or no unoccupied hex
tile at the target coordinate), the world is left entirely unchanged:
every entity, hence the unit's `position`, `hexPosition` and `canMove`
and every tile's `occupied` flag, keeps its prior value. -/
theorem moveUnit_false_atomic (w : List Entity) (i : ℕ) (c : HexCoordinate ℚ)
    (hfalse : (moveUnit w i c).2 = false) : (moveUnit w i c).1 = w := by
  rcases moveUnit_cases w i c with h | h
  · rw [h]
  · rw [h] at hfalse
    exact Bool.noConfusion hfalse

/-- Witness for claim C10: a one-entity world whose unit has
`canMove = false`; the move is refused and the world is unchanged. -/
theorem moveUnit_false_atomic_witness :
    (moveUnit [⟨some ⟨0, 0⟩, some ⟨⟨0, 0, 0⟩⟩, none, none, none,
        some ⟨"warrior", 100, 100, 2, false⟩, none⟩] 0 ⟨1, 0, -1⟩).2 = false ∧
    (moveUnit [⟨some ⟨0, 0⟩, some ⟨⟨0, 0, 0⟩⟩, none, none, none,
        some ⟨"warrior", 100, 100, 2, false⟩, none⟩] 0 ⟨1, 0, -1⟩).1
      = [⟨some ⟨0, 0⟩, some ⟨⟨0, 0, 0⟩⟩, none, none, none,
          some ⟨"warrior", 100, 100, 2, false⟩, none⟩] :=
  ⟨rfl, moveUnit_false_atomic _ _ _ rfl⟩

end HexMap
